import Mathlib

/-!
Verification of the Prince MapReduce wrapper (goossaert/prince).

Shallow embedding conventions:
* Python strings are modelled as lists of characters (`PyStr := List Char`);
  ASCII payloads only, matching the text record format of the repository.
* Python integers are modelled as `Int` (arbitrary precision in Python 2 as
  well, via automatic promotion to `long`).
* Fallible conversions (`int(...)` raising `ValueError`) are modelled with
  `Option`.
* Mapper/reducer emission (`yield`/`return` of pairs) is modelled as lists of
  pairs, matching how `mapper_wrapper`/`reducer_wrapper` materialise them.
-/

abbrev PyStr := List Char

/-- Characters stripped by Python's `str.rstrip()` (ASCII whitespace). -/
def isPySpace (c : Char) : Bool :=
  c = ' ' || c = '\t' || c = '\n' || c = '\r' || c = '\x0b' || c = '\x0c'

/-- Python `str.rstrip()`: drop trailing whitespace. -/
def pyRstrip (s : PyStr) : PyStr :=
  (s.reverse.dropWhile isPySpace).reverse

/-- Python string comparison `s < t` (lexicographic on character codes). -/
def pyLtB : PyStr → PyStr → Bool
  | [], [] => false
  | [], _ :: _ => true
  | _ :: _, [] => false
  | a :: as, b :: bs => if a < b then true else if b < a then false else pyLtB as bs

/-- Helper for `pySplit1`: split off everything before the first occurrence
of `sep`; the second component is `none` when `sep` does not occur. -/
def splitFirst (sep : Char) : PyStr → PyStr × Option PyStr
  | [] => ([], none)
  | c :: cs =>
    if c = sep then ([], some cs)
    else
      let r := splitFirst sep cs
      (c :: r.1, r.2)

/-- Python `s.split(sep, 1)`: a list of one or two fragments. -/
def pySplit1 (sep : Char) (s : PyStr) : List PyStr :=
  match splitFirst sep s with
  | (a, none) => [a]
  | (a, some b) => [a, b]

/-- Fuel-driven worker for `pySplitWs` (fuel bounds the number of tokens). -/
def pySplitWsGo : Nat → PyStr → List PyStr
  | 0, _ => []
  | fuel + 1, s =>
    match s.dropWhile isPySpace with
    | [] => []
    | c :: cs =>
      ((c :: cs).takeWhile (fun d => !isPySpace d)) ::
        pySplitWsGo fuel ((c :: cs).dropWhile (fun d => !isPySpace d))

/-- Python `s.split()` (no argument): split on runs of whitespace,
discarding empty fragments. -/
def pySplitWs (s : PyStr) : List PyStr := pySplitWsGo s.length s

/-- Python `s.split(None, 1)`: first whitespace-delimited token, then the
remainder of the string (leading whitespace of the remainder stripped). -/
def pySplitWs1 (s : PyStr) : List PyStr :=
  let s' := s.dropWhile isPySpace
  match s' with
  | [] => []
  | _ =>
    let tok := s'.takeWhile (fun c => !isPySpace c)
    let rest := (s'.dropWhile (fun c => !isPySpace c)).dropWhile isPySpace
    match rest with
    | [] => [tok]
    | _ => [tok, rest]

/-- Decimal digit accumulation for `parseInt`. -/
def digitsValGo (acc : Nat) : PyStr → Option Nat
  | [] => some acc
  | c :: cs => if c.isDigit then digitsValGo (acc * 10 + (c.toNat - 48)) cs else none

/-- Value of a nonempty all-digit string. -/
def digitsVal : PyStr → Option Nat
  | [] => none
  | cs => digitsValGo 0 cs

/-- Python `int(s)` on a string: optional sign followed by decimal digits;
`none` models the `ValueError` raised on malformed input. -/
def parseInt : PyStr → Option Int
  | '-' :: rest => (digitsVal rest).map (fun n => -(n : Int))
  | '+' :: rest => (digitsVal rest).map (fun n => (n : Int))
  | s => (digitsVal s).map (fun n => (n : Int))

/-- Decimal digit character for `natToStr`. -/
def digitChar (n : Nat) : Char := Char.ofNat (48 + n)

/-- Fuel-driven decimal rendering of a natural number. -/
def natToStrAux : Nat → Nat → PyStr
  | 0, _ => []
  | fuel + 1, n => if n < 10 then [digitChar n] else natToStrAux fuel (n / 10) ++ [digitChar (n % 10)]

/-- Python `str(n)` for a natural number. -/
def natToStr (n : Nat) : PyStr := natToStrAux (n + 1) n

/-- Python `str(i)` for an integer. -/
def intToStr : Int → PyStr
  | .ofNat n => natToStr n
  | .negSucc m => '-' :: natToStr (m + 1)

/-!
## Python `sorted` on lists of strings

`pagerank_reducer` (src/examples/pagerank/pagerank.py, line 68) materialises
its value group and sorts it with Python's `sorted`, relying on the textual
sort placing the `infos ...` sentinel value after all numeric values.
Python's sort is stable and ascending; it is modelled by insertion sort.
-/

/-- Insert `x` into a sorted list, after all elements strictly below it
(stable insertion, matching Python's stable sort). -/
def insertSorted (x : PyStr) : List PyStr → List PyStr
  | [] => [x]
  | y :: ys => if pyLtB y x then y :: insertSorted x ys else x :: y :: ys

/-- Python `sorted` on a list of strings (ascending, stable). -/
def pysorted (l : List PyStr) : List PyStr := l.foldr insertSorted []

theorem insertSorted_ne_nil (x : PyStr) (s : List PyStr) : insertSorted x s ≠ [] := by
  cases s with
  | nil => simp [insertSorted]
  | cons y ys =>
    simp only [insertSorted]
    split <;> simp

theorem mem_insertSorted (x y : PyStr) (s : List PyStr) :
    y ∈ insertSorted x s ↔ y = x ∨ y ∈ s := by
  induction s with
  | nil => simp [insertSorted]
  | cons z zs ih =>
    simp only [insertSorted]
    split
    · simp [ih]
      tauto
    · simp
      try tauto

theorem mem_pysorted (y : PyStr) (l : List PyStr) : y ∈ pysorted l ↔ y ∈ l := by
  induction l with
  | nil => simp [pysorted]
  | cons a as ih =>
    simp only [pysorted, List.foldr_cons]
    rw [mem_insertSorted]
    simp [pysorted] at ih
    simp [ih]

theorem insertSorted_max (m : PyStr) (s : List PyStr)
    (h : ∀ y ∈ s, pyLtB y m = true) : insertSorted m s = s ++ [m] := by
  induction s with
  | nil => simp [insertSorted]
  | cons y ys ih =>
    simp only [insertSorted]
    rw [h y (by simp)]
    simp only [if_true]
    rw [ih (fun z hz => h z (by simp [hz]))]
    simp

theorem insertSorted_getLast (a m : PyStr) (s : List PyStr)
    (hlast : s.getLast? = some m) (hm : pyLtB m a = false) :
    (insertSorted a s).getLast? = some m := by
  induction s with
  | nil => simp at hlast
  | cons y ys ih =>
    cases ys with
    | nil =>
      simp at hlast
      subst hlast
      simp [insertSorted, hm]
    | cons z zs =>
      rw [List.getLast?_cons_cons] at hlast
      rw [insertSorted]
      split
      · obtain ⟨w, ws, hw⟩ := List.exists_cons_of_ne_nil (insertSorted_ne_nil a (z :: zs))
        rw [hw, List.getLast?_cons_cons, ← hw]
        exact ih hlast
      · rw [List.getLast?_cons_cons, List.getLast?_cons_cons]
        exact hlast

theorem pysorted_cons (a : PyStr) (l : List PyStr) :
    pysorted (a :: l) = insertSorted a (pysorted l) := rfl

theorem digit_lt_i (c : Char) (hc : c.isDigit = true) :
    ('i' < c) = False ∧ (c < 'i') = True := by
  simp [Char.isDigit] at hc
  obtain ⟨h1, h2⟩ := hc
  rw [UInt32.le_def, BitVec.le_def] at h1 h2
  have e1 : ((48 : UInt32)).toBitVec.toNat = 48 := by decide
  have e2 : ((57 : UInt32)).toBitVec.toNat = 57 := by decide
  have e3 : ('i'.val).toBitVec.toNat = 105 := by decide
  constructor
  · simp only [eq_iff_iff, iff_false]
    intro h
    rw [Char.lt_def, UInt32.lt_def, BitVec.lt_def] at h
    omega
  · simp only [eq_iff_iff, iff_true]
    rw [Char.lt_def, UInt32.lt_def, BitVec.lt_def]
    omega

theorem pyLtB_digit_lt_i (c : Char) (hc : c.isDigit = true) (r t : PyStr) :
    pyLtB (c :: r) ('i' :: t) = true := by
  obtain ⟨h1, h2⟩ := digit_lt_i c hc
  simp [pyLtB, h2]

theorem pyLtB_i_digit (c : Char) (hc : c.isDigit = true) (r t : PyStr) :
    pyLtB ('i' :: t) (c :: r) = false := by
  obtain ⟨h1, h2⟩ := digit_lt_i c hc
  simp [pyLtB, h1, h2]

/-- If `m` occurs exactly once in `l` and every other element sorts strictly
below it, then the ascending sort puts `m` at the last position. -/
theorem pysorted_getLast_of_unique_max (m : PyStr) (l : List PyStr)
    (hmem : m ∈ l) (hcount : l.count m = 1)
    (hmax : ∀ x ∈ l, x ≠ m → pyLtB m x = false ∧ pyLtB x m = true) :
    (pysorted l).getLast? = some m := by
  induction l with
  | nil => simp at hmem
  | cons a l ih =>
    by_cases ha : a = m
    · subst ha
      have hnot : a ∉ l := by
        rw [List.count_cons_self] at hcount
        have : l.count a = 0 := by omega
        exact List.count_eq_zero.mp this
      rw [pysorted_cons, insertSorted_max]
      · exact List.getLast?_concat _
      · intro y hy
        rw [mem_pysorted] at hy
        have hne : y ≠ a := by
          intro h
          exact hnot (h ▸ hy)
        exact (hmax y (by simp [hy]) hne).2
    · have hmem' : m ∈ l := by
        rcases List.mem_cons.mp hmem with h | h
        · exact absurd h.symm ha
        · exact h
      have hcount' : l.count m = 1 := by
        rw [List.count_cons] at hcount
        simpa [ha] using hcount
      have ihl := ih hmem' hcount' (fun x hx hne => hmax x (by simp [hx]) hne)
      rw [pysorted_cons]
      exact insertSorted_getLast a m (pysorted l) ihl (hmax a (by simp) ha).1

/-- C4: in a value group holding exactly one sentinel value that begins with
`infos ` while every other value begins with a decimal digit, the ascending
textual sort used by `pagerank_reducer` places the sentinel last, so the
reducer reads the `infos` record as `values[-1]`, i.e. as
`(pysorted vs).getLast?`. -/
theorem pagerank_sorted_sentinel_last (vs : List PyStr) (v₀ : PyStr)
    (hmem : v₀ ∈ vs) (hcount : vs.count v₀ = 1)
    (hpre : ['i', 'n', 'f', 'o', 's', ' '].isPrefixOf v₀ = true)
    (hdig : ∀ v ∈ vs, v ≠ v₀ → ∃ c r, v = c :: r ∧ c.isDigit = true) :
    (pysorted vs).getLast? = some v₀ := by
  obtain ⟨t, rfl⟩ : ∃ t, v₀ = 'i' :: t := by
    cases v₀ with
    | nil => simp [List.isPrefixOf] at hpre
    | cons c cs =>
      simp [List.isPrefixOf] at hpre
      exact ⟨cs, by rw [hpre.1]⟩
  apply pysorted_getLast_of_unique_max _ _ hmem hcount
  intro x hx hne
  obtain ⟨c, r, rfl, hc⟩ := hdig x hx hne
  exact ⟨pyLtB_i_digit c hc r t, pyLtB_digit_lt_i c hc r t⟩

/-- C4 witness: a concrete group with sentinel `infos 1 2` and two numeric
values; the sort puts the sentinel last. -/
theorem pagerank_sorted_sentinel_last_witness :
    (pysorted [['0', '.', '5'], "infos 1 2".data, ['0', '.', '2', '5']]).getLast? =
      some ("infos 1 2".data) := by
  apply pagerank_sorted_sentinel_last
  · simp
  · decide
  · decide
  · intro v hv hne
    simp at hv
    rcases hv with rfl | rfl | rfl
    · exact ⟨'0', ['.', '5'], rfl, by decide⟩
    · exact absurd rfl hne
    · exact ⟨'0', ['.', '2', '5'], rfl, by decide⟩

/-!
## `mapper_wrapper` (src/prince.py lines 579-603, identical in
src/prince/job.py lines 104-128)

The wrapper reads stdin lines, calls the user mapper with
`(str(key), line.rstrip())` and prints each produced pair, substituting the
running counter `key` for a `None` pair key; `key += 1` executes once per
*printed pair*, inside the emission loop.
-/

/-- Emission loop of `mapper_wrapper` for the pairs of one invocation:
a `None` key is replaced by the current counter, the value is
right-stripped, and the counter advances once per printed pair. -/
def emitPairs (key : Nat) : List (Option PyStr × PyStr) → List (PyStr × PyStr)
  | [] => []
  | (k?, v) :: rest => (k?.getD (natToStr key), pyRstrip v) :: emitPairs (key + 1) rest

/-- Records printed by `mapper_wrapper` for the given input lines, starting
from counter value `key`. -/
def mapperOutFrom (f : PyStr → PyStr → List (Option PyStr × PyStr)) (key : Nat) :
    List PyStr → List (PyStr × PyStr)
  | [] => []
  | line :: rest =>
    let pairs := f (natToStr key) (pyRstrip line)
    emitPairs key pairs ++ mapperOutFrom f (key + pairs.length) rest

/-- `mapper_wrapper mapper_fct`: all records printed for the input lines. -/
def mapper_wrapper (f : PyStr → PyStr → List (Option PyStr × PyStr))
    (lines : List PyStr) : List (PyStr × PyStr) :=
  mapperOutFrom f 0 lines

/-- The `(key, value)` argument pairs that `mapper_wrapper` passes to the
user mapper function, starting from counter value `key`. -/
def mapperCallsFrom (f : PyStr → PyStr → List (Option PyStr × PyStr)) (key : Nat) :
    List PyStr → List (PyStr × PyStr)
  | [] => []
  | line :: rest =>
    let v := pyRstrip line
    (natToStr key, v) :: mapperCallsFrom f (key + (f (natToStr key) v).length) rest

/-- The argument pairs of all mapper invocations of one map task. -/
def mapper_wrapper_calls (f : PyStr → PyStr → List (Option PyStr × PyStr))
    (lines : List PyStr) : List (PyStr × PyStr) :=
  mapperCallsFrom f 0 lines

theorem emitPairs_length (key : Nat) (ps : List (Option PyStr × PyStr)) :
    (emitPairs key ps).length = ps.length := by
  induction ps generalizing key with
  | nil => rfl
  | cons p rest ih =>
    obtain ⟨k?, v⟩ := p
    simp [emitPairs, ih]

theorem mapperCallsFrom_length (f : PyStr → PyStr → List (Option PyStr × PyStr))
    (lines : List PyStr) : ∀ key, (mapperCallsFrom f key lines).length = lines.length := by
  induction lines with
  | nil => intro key; rfl
  | cons line rest ih =>
    intro key
    simp [mapperCallsFrom, ih]

theorem mapperCallsFrom_get? (f : PyStr → PyStr → List (Option PyStr × PyStr))
    (lines : List PyStr) :
    ∀ (key i : Nat) (line : PyStr), lines.get? i = some line →
      (mapperCallsFrom f key lines).get? i =
        some (natToStr (key + (mapperOutFrom f key (lines.take i)).length), pyRstrip line) := by
  induction lines with
  | nil =>
    intro key i line h
    simp at h
  | cons l rest ih =>
    intro key i line h
    cases i with
    | zero =>
      simp at h
      subst h
      simp [mapperCallsFrom, mapperOutFrom]
    | succ i =>
      simp only [List.get?_cons_succ] at h
      simp only [mapperCallsFrom, List.get?_cons_succ]
      rw [ih _ i line h]
      simp only [List.take_succ_cons, mapperOutFrom, List.length_append, emitPairs_length]
      rw [Nat.add_assoc]

/-- C1 counterexample: with a mapper that emits two pairs per line, the
second input line is invoked with key `"2"` (the number of pairs already
emitted), not its zero-based ordinal `"1"`; moreover `line.rstrip()` also
removes trailing whitespace other than the newline. -/
theorem mapper_wrapper_line_key_counterexample :
    (mapper_wrapper_calls (fun _ _ => [(some ['x'], ['y']), (some ['x'], ['y'])])
        [['a', ' ', '\n'], ['b', '\n']]).get? 0 = some (['0'], ['a']) ∧
    (['a'] : PyStr) ≠ ['a', ' '] ∧
    (mapper_wrapper_calls (fun _ _ => [(some ['x'], ['y']), (some ['x'], ['y'])])
        [['a', ' ', '\n'], ['b', '\n']]).get? 1 = some (['2'], ['b']) ∧
    (['2'] : PyStr) ≠ ['1'] := by
  refine ⟨by decide, by decide, by decide, by decide⟩

/-- C1 (amended): `mapper_wrapper` invokes the user map function once per
input line; the value is the line with trailing whitespace (including the
newline) stripped, and the key is the total number of pairs printed by the
earlier invocations, rendered as a string — equal to the line's zero-based
ordinal only when every earlier invocation emitted exactly one pair. -/
theorem mapper_wrapper_call_keys (f : PyStr → PyStr → List (Option PyStr × PyStr))
    (lines : List PyStr) :
    (mapper_wrapper_calls f lines).length = lines.length ∧
    ∀ (i : Nat) (line : PyStr), lines.get? i = some line →
      (mapper_wrapper_calls f lines).get? i =
        some (natToStr (mapper_wrapper f (lines.take i)).length, pyRstrip line) := by
  constructor
  · exact mapperCallsFrom_length f lines 0
  · intro i line h
    have := mapperCallsFrom_get? f lines 0 i line h
    simpa [mapper_wrapper_calls, mapper_wrapper] using this

/-- C1 witness: with the identity-style mapper emitting one keyless pair per
line, the second line is invoked with key `"1"` and the stripped value. -/
theorem mapper_wrapper_call_keys_witness :
    ([['h', 'i', '\n'], ['y', 'o', '\n']] : List PyStr).get? 1 = some ['y', 'o', '\n'] ∧
    (mapper_wrapper_calls (fun _ v => [(none, v)]) [['h', 'i', '\n'], ['y', 'o', '\n']]).get? 1 =
      some (natToStr (mapper_wrapper (fun _ v => [(none, v)])
        ([['h', 'i', '\n'], ['y', 'o', '\n']].take 1)).length, pyRstrip ['y', 'o', '\n']) :=
  ⟨by decide,
   (mapper_wrapper_call_keys (fun _ v => [(none, v)]) [['h', 'i', '\n'], ['y', 'o', '\n']]).2
     1 ['y', 'o', '\n'] (by decide)⟩

/-!
## Text record round trip

`dfs_write` (src/prince.py lines 342-366) serialises a list of pairs as
`str(key) + '\t' + str(value)` joined by newlines; the content reaches the
DFS file through `echo "..." | hadoop dfs -put -`, which appends a final
newline. `read_input_reducer` (src/prince.py lines 504-521) reads each file
line and yields `line.rstrip().split(separator, 1)`.
-/

/-- One serialised record: `str(item[0]) + '\t' + str(item[1])`. -/
def recordLine (p : PyStr × PyStr) : PyStr := p.1 ++ '\t' :: p.2

/-- Python `'\n'.join(...)`. -/
def joinLines : List PyStr → PyStr
  | [] => []
  | [r] => r
  | r :: rest => r ++ '\n' :: joinLines rest

/-- `dfs_write` with a list of pairs: the text content of the resulting DFS
file (`echo` appends the final newline). -/
def dfs_write_text (content : List (PyStr × PyStr)) : PyStr :=
  joinLines (content.map recordLine) ++ ['\n']

/-- Worker for `pyLines` (Python file-object line iteration). -/
def pyLinesGo (acc : PyStr) : PyStr → List PyStr
  | [] => if acc.isEmpty then [] else [acc.reverse]
  | c :: cs =>
    if c = '\n' then (acc.reverse ++ ['\n']) :: pyLinesGo [] cs
    else pyLinesGo (c :: acc) cs

/-- Python file-object line iteration (`for line in file`): fragments end
after each newline; a final newline-less fragment is kept if nonempty. -/
def pyLines (s : PyStr) : List PyStr := pyLinesGo [] s

/-- `read_input_reducer` over the text of a DFS file: for each line,
`line.rstrip().split('\t', 1)`. -/
def read_input_reducer (text : PyStr) : List (List PyStr) :=
  (pyLines text).map (fun line => pySplit1 '\t' (pyRstrip line))

theorem pyLinesGo_no_newline (r : PyStr) :
    ∀ (acc t : PyStr), '\n' ∉ r →
      pyLinesGo acc (r ++ '\n' :: t) = (acc.reverse ++ r ++ ['\n']) :: pyLinesGo [] t := by
  induction r with
  | nil =>
    intro acc t _
    simp [pyLinesGo]
  | cons c cs ih =>
    intro acc t hr
    have hc : c ≠ '\n' := by
      intro h
      exact hr (by simp [h])
    have hcs : '\n' ∉ cs := fun h => hr (by simp [h])
    simp only [List.cons_append, List.append_eq, pyLinesGo, if_neg hc]
    rw [ih (c :: acc) t hcs]
    simp

theorem pyLines_joinLines (rs : List PyStr) (hne : rs ≠ [])
    (hnl : ∀ r ∈ rs, '\n' ∉ r) :
    pyLines (joinLines rs ++ ['\n']) = rs.map (fun r => r ++ ['\n']) := by
  induction rs with
  | nil => exact absurd rfl hne
  | cons r rest ih =>
    cases rest with
    | nil =>
      have hr := hnl r (by simp)
      show pyLinesGo [] (r ++ '\n' :: []) = _
      rw [pyLinesGo_no_newline r [] [] hr]
      simp [pyLinesGo]
    | cons r2 rest2 =>
      have hr := hnl r (by simp)
      have step : joinLines (r :: r2 :: rest2) ++ ['\n'] =
          r ++ '\n' :: (joinLines (r2 :: rest2) ++ ['\n']) := by
        simp [joinLines]
      show pyLines (joinLines (r :: r2 :: rest2) ++ ['\n']) = _
      rw [step]
      show pyLinesGo [] _ = _
      rw [pyLinesGo_no_newline r _ _ hr]
      have := ih (by simp) (fun x hx => hnl x (by simp [hx]))
      simp only [pyLines] at this
      rw [this]
      simp

theorem splitFirst_no_sep (k v : PyStr) (hk : '\t' ∉ k) :
    splitFirst '\t' (k ++ '\t' :: v) = (k, some v) := by
  induction k with
  | nil => simp [splitFirst]
  | cons c cs ih =>
    have hc : c ≠ '\t' := fun h => hk (by simp [h])
    have hcs : '\t' ∉ cs := fun h => hk (by simp [h])
    simp only [List.cons_append, List.append_eq, splitFirst, if_neg hc]
    rw [ih hcs]

theorem pySplit1_record (k v : PyStr) (hk : '\t' ∉ k) :
    pySplit1 '\t' (k ++ '\t' :: v) = [k, v] := by
  simp [pySplit1, splitFirst_no_sep k v hk]

theorem pyRstrip_record_line (k v : PyStr) (c : Char) (w : PyStr)
    (hv : v = w ++ [c]) (hc : isPySpace c = false) :
    pyRstrip ((k ++ '\t' :: v) ++ ['\n']) = k ++ '\t' :: v := by
  subst hv
  simp only [pyRstrip, List.reverse_append, List.reverse_cons]
  simp only [List.reverse_singleton, List.singleton_append, List.append_assoc,
    List.reverse_nil, List.nil_append]
  rw [List.dropWhile_cons]
  simp only [show isPySpace '\n' = true from rfl, if_true]
  simp [List.cons_append, List.dropWhile_cons, hc]

/-- C2 counterexample: a pair whose value ends in a space (no tab anywhere)
does not survive the round trip, because `read_input_reducer` right-strips
the whole line before splitting. -/
theorem text_round_trip_counterexample :
    read_input_reducer (dfs_write_text [(['k'], ['v', ' '])]) = [[['k'], ['v']]] ∧
    ([[['k'], ['v']]] : List (List PyStr)) ≠
      [((['k'] : PyStr), (['v', ' '] : PyStr))].map (fun p => [p.1, p.2]) := by
  refine ⟨by decide, by decide⟩

/-- C2 (amended): serialising a nonempty sequence of pairs whose keys and
values contain no tab and no newline, and whose values end in a
non-whitespace character, through `dfs_write` and parsing the file back with
`read_input_reducer` yields exactly the original pairs in order. -/
theorem dfs_write_read_round_trip (pairs : List (PyStr × PyStr))
    (hne : pairs ≠ [])
    (htab : ∀ p ∈ pairs, '\t' ∉ p.1 ∧ '\t' ∉ p.2)
    (hnl : ∀ p ∈ pairs, '\n' ∉ p.1 ∧ '\n' ∉ p.2)
    (hval : ∀ p ∈ pairs, ∃ c w, p.2 = w ++ [c] ∧ isPySpace c = false) :
    read_input_reducer (dfs_write_text pairs) = pairs.map (fun p => [p.1, p.2]) := by
  unfold read_input_reducer dfs_write_text
  rw [pyLines_joinLines]
  · rw [List.map_map, List.map_map]
    apply List.map_congr_left
    intro p hp
    obtain ⟨c, w, hv, hc⟩ := hval p hp
    simp only [Function.comp, recordLine]
    rw [pyRstrip_record_line p.1 p.2 c w hv hc]
    exact pySplit1_record p.1 p.2 (htab p hp).1
  · simp [hne]
  · intro r hr
    simp only [List.mem_map] at hr
    obtain ⟨p, hp, rfl⟩ := hr
    intro h
    simp only [recordLine, List.mem_append, List.mem_cons] at h
    rcases h with h | h | h
    · exact (hnl p hp).1 h
    · exact absurd h (by decide)
    · exact (hnl p hp).2 h

/-- C2 witness: two tab-free, newline-free pairs round-trip exactly. -/
theorem dfs_write_read_round_trip_witness :
    read_input_reducer (dfs_write_text [(['a'], ['b', ' ', 'c']), (['x'], ['1'])]) =
      [((['a'] : PyStr), (['b', ' ', 'c'] : PyStr)), (['x'], ['1'])].map
        (fun p => [p.1, p.2]) := by
  apply dfs_write_read_round_trip
  · decide
  · decide
  · decide
  · intro p hp
    simp at hp
    rcases hp with rfl | rfl
    · exact ⟨'c', ['b', ' '], by decide, by decide⟩
    · exact ⟨'1', [], by decide, by decide⟩

/-!
## Command-line parameter passing

`parameter_dict_to_command` (src/prince.py lines 388-410) flattens a
parameter dictionary to alternating `--name` / `"value"` tokens joined by
spaces; the worker process parses its `sys.argv` back with
`get_parameters_all` (src/prince.py lines 48-72), and `get_parameters`
(src/prince.py lines 76-111) deletes the two reserved task-type names
`pmapper`/`preducer` before answering queries.

Python dictionaries are modelled as association lists with unique keys:
`dinsert` overwrites in place, `dlookup` returns `none` for absent keys.
-/

/-- Python dict assignment `d[k] = v`: overwrite in place, else append. -/
def dinsert (k : PyStr) (v : Option PyStr) :
    List (PyStr × Option PyStr) → List (PyStr × Option PyStr)
  | [] => [(k, v)]
  | (k', v') :: rest => if k' = k then (k', v) :: rest else (k', v') :: dinsert k v rest

/-- Python dict lookup; `none` when the key is absent. -/
def dlookup (k : PyStr) : List (PyStr × Option PyStr) → Option (Option PyStr)
  | [] => none
  | (k', v) :: rest => if k' = k then some v else dlookup k rest

/-- Python `del d[k]`. -/
def ddel (k : PyStr) (d : List (PyStr × Option PyStr)) : List (PyStr × Option PyStr) :=
  d.filter (fun p => p.1 != k)

/-- Scanner of `get_parameters_all` over `sys.argv`: every token starting
with `--` becomes a key (dashes dropped) whose content is the next token,
or `None` when there is no next token or it starts with `-`. -/
def gpaGo : List PyStr → List (PyStr × Option PyStr) → List (PyStr × Option PyStr)
  | [], d => d
  | [v], d =>
    if ['-', '-'].isPrefixOf v then dinsert (v.drop 2) none d else d
  | v :: next :: rest, d =>
    let d' :=
      if ['-', '-'].isPrefixOf v then
        dinsert (v.drop 2) (if ['-'].isPrefixOf next then none else some next) d
      else d
    gpaGo (next :: rest) d'

/-- `get_parameters_all`: dictionary of all `--name value` parameters found
in the command line. Note: each entry holds a single content string (or
`None`), and a repeated `--name` overwrites the previous content. -/
def get_parameters_all (argv : List PyStr) : List (PyStr × Option PyStr) :=
  gpaGo argv []

/-- Reserved task-type flag telling a worker it is a mapper. -/
def option_mapper : PyStr := "pmapper".data

/-- Reserved task-type flag telling a worker it is a reducer. -/
def option_reducer : PyStr := "preducer".data

/-- `get_parameters` restricted to a single queried name: the dictionary is
`get_parameters_all()` with the two reserved task-type names deleted; both
an absent name and a name stored with content `None` answer `None`. -/
def get_parameters (argv : List PyStr) (name : PyStr) : Option PyStr :=
  (dlookup name (ddel option_reducer (ddel option_mapper (get_parameters_all argv)))).join

/-- Python `' '.join` / `'\n'.join` generalised over the separator. -/
def joinWith (sep : Char) : List PyStr → PyStr
  | [] => []
  | [r] => r
  | r :: rest => r ++ sep :: joinWith sep rest

/-- The `options_list` built by `parameter_dict_to_command`: for each
parameter name and each of its values, the token `--name` followed by the
value wrapped in quote marks. -/
def parameter_dict_to_command_list (parameters : List (PyStr × List PyStr))
    (quote : Char) : List PyStr :=
  parameters.flatMap (fun p =>
    p.2.flatMap (fun v => [['-', '-'] ++ p.1, quote :: v ++ [quote]]))

/-- `parameter_dict_to_command`: the tokens joined by single spaces. -/
def parameter_dict_to_command (parameters : List (PyStr × List PyStr))
    (quote : Char) : PyStr :=
  joinWith ' ' (parameter_dict_to_command_list parameters quote)

/-- Process boundary: when the worker command line is word-split by the
shell, the double quotes placed around each value are consumed. -/
def shellUnquote (t : PyStr) : PyStr :=
  if ['"'].isPrefixOf t then (t.drop 1).dropLast else t

/-- The worker's `sys.argv`: program name, then the flattened parameter
tokens with their quote marks consumed by the shell. -/
def worker_argv (parameters : List (PyStr × List PyStr)) : List PyStr :=
  "prog".data :: (parameter_dict_to_command_list parameters '"').map shellUnquote

/-- C3, as claimed: parsing the flattened tokens back recovers every value
of every parameter name. -/
def parameter_round_trip_claim (P : List (PyStr × List PyStr)) : Prop :=
  ∀ n vs, (n, vs) ∈ P → ∀ v ∈ vs,
    dlookup n (get_parameters_all (worker_argv P)) = some (some v)

theorem dlookup_dinsert_self (k : PyStr) (v : Option PyStr)
    (d : List (PyStr × Option PyStr)) : dlookup k (dinsert k v d) = some v := by
  induction d with
  | nil => simp [dinsert, dlookup]
  | cons p rest ih =>
    obtain ⟨k', v'⟩ := p
    by_cases h : k' = k
    · simp [dinsert, dlookup, h]
    · simp [dinsert, dlookup, h, ih]

theorem dlookup_dinsert_ne (k k' : PyStr) (hne : k' ≠ k) (v : Option PyStr)
    (d : List (PyStr × Option PyStr)) : dlookup k (dinsert k' v d) = dlookup k d := by
  induction d with
  | nil => simp [dinsert, dlookup, hne]
  | cons p rest ih =>
    obtain ⟨k0, v0⟩ := p
    rw [dinsert]
    by_cases h : k0 = k'
    · rw [if_pos h]
      have hk : ¬ k0 = k := by rw [h]; exact hne
      rw [dlookup, dlookup, if_neg hk, if_neg hk]
    · rw [if_neg h, dlookup, dlookup]
      by_cases h2 : k0 = k
      · rw [if_pos h2, if_pos h2]
      · rw [if_neg h2, if_neg h2]
        exact ih

theorem dlookup_ddel_self (k : PyStr) (d : List (PyStr × Option PyStr)) :
    dlookup k (ddel k d) = none := by
  induction d with
  | nil => rfl
  | cons p rest ih =>
    obtain ⟨k0, v0⟩ := p
    show dlookup k (List.filter _ ((k0, v0) :: rest)) = none
    rw [List.filter_cons]
    by_cases h : k0 = k
    · rw [if_neg (by simp [h])]
      exact ih
    · rw [if_pos (by simp [h])]
      rw [dlookup, if_neg h]
      exact ih

theorem dlookup_ddel_ne (k k' : PyStr) (hne : k ≠ k') (d : List (PyStr × Option PyStr)) :
    dlookup k (ddel k' d) = dlookup k d := by
  induction d with
  | nil => rfl
  | cons p rest ih =>
    obtain ⟨k0, v0⟩ := p
    show dlookup k (List.filter _ ((k0, v0) :: rest)) = _
    rw [List.filter_cons]
    by_cases h : k0 = k'
    · rw [if_neg (by simp [h])]
      have hk : ¬ k0 = k := by rw [h]; exact fun h2 => hne h2.symm
      rw [dlookup, if_neg hk]
      exact ih
    · rw [if_pos (by simp [h]), dlookup, dlookup]
      by_cases h2 : k0 = k
      · rw [if_pos h2, if_pos h2]
      · rw [if_neg h2, if_neg h2]
        exact ih

/-- C8: whatever the worker command line is, `get_parameters` never answers
a value for the two reserved task-type names `pmapper` and `preducer`: they
are deleted from the parsed dictionary before any query is answered. -/
theorem get_parameters_reserved_always_none (argv : List PyStr) :
    get_parameters argv option_mapper = none ∧
    get_parameters argv option_reducer = none := by
  constructor
  · unfold get_parameters
    rw [dlookup_ddel_ne option_mapper option_reducer (by decide),
      dlookup_ddel_self]
    rfl
  · unfold get_parameters
    rw [dlookup_ddel_self]
    rfl

theorem not_dashdash_of_not_dash (v : PyStr) (h : ['-'].isPrefixOf v = false) :
    ['-', '-'].isPrefixOf v = false := by
  cases v with
  | nil => rfl
  | cons c t =>
    simp [List.isPrefixOf] at h ⊢
    intro hc
    exact absurd hc h

theorem gpaGo_skip (v : PyStr) (hv : ['-', '-'].isPrefixOf v = false)
    (rest : List PyStr) (d : List (PyStr × Option PyStr)) :
    gpaGo (v :: rest) d = gpaGo rest d := by
  cases rest with
  | nil => simp [gpaGo, hv]
  | cons w rest2 => simp [gpaGo, hv]

theorem shellUnquote_dashdash (n : PyStr) :
    shellUnquote (['-', '-'] ++ n) = ['-', '-'] ++ n := by
  simp [shellUnquote, List.isPrefixOf]

theorem shellUnquote_quoted (v : PyStr) :
    shellUnquote ('"' :: v ++ ['"']) = v := by
  simp [shellUnquote, List.isPrefixOf]

theorem gpaGo_worker_tokens (P : List (PyStr × List PyStr)) :
    ∀ (d : List (PyStr × Option PyStr)),
      (∀ q ∈ P, ∃ v, q.2 = [v] ∧ ['-'].isPrefixOf v = false) →
      gpaGo ((parameter_dict_to_command_list P '"').map shellUnquote) d =
        P.foldl (fun acc q => dinsert q.1 (some (q.2.headD [])) acc) d := by
  induction P with
  | nil =>
    intro d _
    rfl
  | cons q P' ih =>
    intro d hsingle
    obtain ⟨n, vs⟩ := q
    obtain ⟨v, hvs, hv⟩ := hsingle (n, vs) (by simp)
    simp only at hvs
    subst hvs
    have htokens : parameter_dict_to_command_list ((n, [v]) :: P') '"' =
        (['-', '-'] ++ n) :: ('"' :: v ++ ['"']) :: parameter_dict_to_command_list P' '"' := by
      simp [parameter_dict_to_command_list]
    rw [htokens]
    simp only [List.map_cons, shellUnquote_dashdash, shellUnquote_quoted]
    rw [show gpaGo ((['-', '-'] ++ n) :: v :: (parameter_dict_to_command_list P' '"').map shellUnquote) d =
        gpaGo (v :: (parameter_dict_to_command_list P' '"').map shellUnquote)
          (dinsert ((['-', '-'] ++ n).drop 2) (if ['-'].isPrefixOf v then none else some v) d) from by
      simp [gpaGo, List.isPrefixOf]]
    rw [gpaGo_skip v (not_dashdash_of_not_dash v hv)]
    rw [ih _ (fun q hq => hsingle q (by simp [hq]))]
    simp [hv]

theorem dlookup_foldl_not_mem (k : PyStr) (l : List (PyStr × Option PyStr))
    (hk : k ∉ l.map Prod.fst) :
    ∀ d, dlookup k (l.foldl (fun acc q => dinsert q.1 q.2 acc) d) = dlookup k d := by
  induction l with
  | nil => intro d; rfl
  | cons q l' ih =>
    intro d
    obtain ⟨k1, v1⟩ := q
    simp only [List.map_cons, List.mem_cons] at hk
    push_neg at hk
    rw [List.foldl_cons]
    rw [ih hk.2]
    exact dlookup_dinsert_ne k k1 (fun h => hk.1 h.symm) v1 d

theorem dlookup_foldl_dinsert (l : List (PyStr × Option PyStr))
    (hnodup : (l.map Prod.fst).Nodup) :
    ∀ (d : List (PyStr × Option PyStr)) (k : PyStr) (val : Option PyStr),
      (k, val) ∈ l →
      dlookup k (l.foldl (fun acc q => dinsert q.1 q.2 acc) d) = some val := by
  induction l with
  | nil =>
    intro d k val h
    simp at h
  | cons q l' ih =>
    intro d k val h
    obtain ⟨k1, v1⟩ := q
    simp only [List.map_cons, List.nodup_cons] at hnodup
    rw [List.foldl_cons]
    rcases List.mem_cons.mp h with heq | hmem
    · obtain ⟨rfl, rfl⟩ := Prod.mk.injEq .. ▸ heq
      rw [dlookup_foldl_not_mem k l' hnodup.1]
      exact dlookup_dinsert_self k val d
    · exact ih hnodup.2 _ k val hmem

/-- C3 counterexample: `get_parameters_all` stores a single content string
per name, so the multi-valued name `b` comes back as only its last value
`"2"`, and the value `"-1"` (which starts with `-`) comes back as `None`;
the round trip does not recover the ParameterSet. -/
theorem parameter_round_trip_counterexample :
    dlookup ['a'] (get_parameters_all (worker_argv
        [(['a'], [['-', '1']]), (['b'], [['1'], ['2']])])) = some none ∧
    dlookup ['b'] (get_parameters_all (worker_argv
        [(['a'], [['-', '1']]), (['b'], [['1'], ['2']])])) = some (some ['2']) ∧
    ¬ parameter_round_trip_claim [(['a'], [['-', '1']]), (['b'], [['1'], ['2']])] := by
  refine ⟨by decide, by decide, ?_⟩
  intro h
  have h2 := h ['b'] [['1'], ['2']] (by simp) ['1'] (by simp)
  exact absurd h2 (by decide)

/-- C3 (amended): for a ParameterSet with pairwise distinct names, none of
them reserved, in which every name maps to exactly one value and no value
starts with `-`, flattening with `parameter_dict_to_command` and parsing the
worker command line back with `get_parameters_all` recovers each name's
single value (as one content string, not as a list). -/
theorem parameter_round_trip_singletons (P : List (PyStr × List PyStr))
    (hnodup : (P.map Prod.fst).Nodup)
    (hres : ∀ q ∈ P, q.1 ≠ option_mapper ∧ q.1 ≠ option_reducer ∧ q.1 ≠ "trace".data)
    (hsingle : ∀ q ∈ P, ∃ v, q.2 = [v] ∧ ['-'].isPrefixOf v = false) :
    parameter_round_trip_claim P := by
  intro n vs hmem v hv
  obtain ⟨v', hvs, hv'⟩ := hsingle (n, vs) hmem
  simp only at hvs
  subst hvs
  simp only [List.mem_singleton] at hv
  subst hv
  rw [show get_parameters_all (worker_argv P) =
      gpaGo ((parameter_dict_to_command_list P '"').map shellUnquote) [] from by
    unfold get_parameters_all worker_argv
    exact gpaGo_skip _ (by decide) _ _]
  rw [gpaGo_worker_tokens P [] hsingle]
  rw [show P.foldl (fun acc q => dinsert q.1 (some (q.2.headD [])) acc) [] =
      (P.map (fun q => (q.1, some (q.2.headD [])))).foldl
        (fun acc q => dinsert q.1 q.2 acc) [] from by
    rw [List.foldl_map]]
  apply dlookup_foldl_dinsert
  · simpa [List.map_map, Function.comp] using hnodup
  · exact List.mem_map.mpr ⟨(n, [v]), hmem, by simp⟩

/-- C3 witness: two single-valued parameters round-trip. -/
theorem parameter_round_trip_singletons_witness :
    parameter_round_trip_claim [(['a'], [['1']]), (['b'], [['x', 'y']])] := by
  apply parameter_round_trip_singletons
  · decide
  · decide
  · intro q hq
    simp at hq
    rcases hq with rfl | rfl
    · exact ⟨['1'], rfl, by decide⟩
    · exact ⟨['x', 'y'], rfl, by decide⟩

/-!
## PageRank quadratic-norm termination

`term_reducer` (src/examples/pagerank/pagerank.py lines 90-98) and the
driver loop (lines 178-197). Python float arithmetic is idealised as exact
rational arithmetic; the reducer's value group is modelled as the list of
parsed numeric changes (the claim assumes every value parses).
-/

/-- `sum([float(p) ** 2 for p in pagerank_changes])`. -/
def sumSqChanges (changes : List ℚ) : ℚ := (changes.map (fun p => p ^ 2)).sum

/-- `term_reducer`: the continue record `(0, 0)` when the quadratic norm
exceeds `precision ** 2`, the converged record `(1, 1)` otherwise. -/
def term_reducer (precision : ℚ) (changes : List ℚ) : Int × Int :=
  if sumSqChanges changes > precision ^ 2 then (0, 0) else (1, 1)

/-- The controller's stop test: `stop = int(term_value.split()[1])`, truthy
exactly when the flag field of the termination record is nonzero. -/
def pagerank_stop (precision : ℚ) (changes : List ℚ) : Bool :=
  (term_reducer precision changes).2 != 0

/-- The controller loop: starting at iteration `iter`, run the termination
job on each iteration's changes and stop at the first truthy flag (`fuel`
bounds the search, standing for the iteration ceiling). -/
def loopFirstStop (precision : ℚ) (deltas : Nat → List ℚ) : Nat → Nat → Option Nat
  | 0, _ => none
  | fuel + 1, iter =>
    if pagerank_stop precision (deltas iter) then some iter
    else loopFirstStop precision deltas fuel (iter + 1)

/-- C6: `term_reducer` emits the continue record `(0, 0)` exactly when the
sum of squared changes strictly exceeds precision², otherwise the converged
record `(1, 1)`; and the controller loop stops exactly at the first
iteration whose sum of squared deltas is at or below precision². -/
theorem pagerank_quadratic_termination (precision : ℚ) (deltas : Nat → List ℚ)
    (fuel start n : Nat)
    (h : loopFirstStop precision deltas fuel start = some n) :
    (∀ (q : ℚ) (cs : List ℚ),
        term_reducer q cs = (0, 0) ↔ sumSqChanges cs > q ^ 2) ∧
    sumSqChanges (deltas n) ≤ precision ^ 2 ∧
    ∀ m, start ≤ m → m < n → sumSqChanges (deltas m) > precision ^ 2 := by
  refine ⟨?_, ?_⟩
  · intro q cs
    unfold term_reducer
    split
    · simpa
    · constructor
      · intro hcontra
        exact absurd hcontra (by decide)
      · intro hgt
        exact absurd hgt (by assumption)
  · induction fuel generalizing start with
    | zero => exact absurd h (by simp [loopFirstStop])
    | succ fuel ih =>
      rw [loopFirstStop] at h
      by_cases hs : pagerank_stop precision (deltas start) = true
      · rw [if_pos hs] at h
        obtain rfl : start = n := by simpa using h
        constructor
        · unfold pagerank_stop term_reducer at hs
          split at hs
          · exact absurd hs (by decide)
          · linarith [not_lt.mp (by assumption : ¬ sumSqChanges (deltas start) > precision ^ 2)]
        · intro m h1 h2
          omega
      · rw [if_neg hs] at h
        obtain ⟨hle, hall⟩ := ih (start + 1) h
        refine ⟨hle, ?_⟩
        intro m h1 h2
        rcases Nat.eq_or_lt_of_le h1 with rfl | hlt
        · unfold pagerank_stop term_reducer at hs
          split at hs
          · assumption
          · exact absurd (by decide) hs
        · exact hall m hlt h2

/-- C6 witness: with precision 1 and squared deltas 4 then 1, the loop
stops at iteration 1, the first whose sum of squares is ≤ 1. -/
theorem pagerank_quadratic_termination_witness :
    (∀ (q : ℚ) (cs : List ℚ),
        term_reducer q cs = (0, 0) ↔ sumSqChanges cs > q ^ 2) ∧
    sumSqChanges ((fun k => if k = 0 then [(2 : ℚ)] else [1]) 1) ≤ (1 : ℚ) ^ 2 ∧
    ∀ m, 0 ≤ m → m < 1 →
      sumSqChanges ((fun k => if k = 0 then [(2 : ℚ)] else [1]) m) > (1 : ℚ) ^ 2 :=
  pagerank_quadratic_termination 1 (fun k => if k = 0 then [2] else [1]) 5 0 1 (by
    norm_num [loopFirstStop, pagerank_stop, term_reducer, sumSqChanges])

/-!
## `merge_lists` (src/examples/mergesort/mergesort.py lines 51-69)

Python appends `sys.maxint` to both lists as a sentinel, runs
`len(list1) + len(list2) - 2` comparison steps each advancing an index into
one of the lists, then deletes the sentinels again with `del list[-1]`.
The two index cursors are modelled by the remaining suffixes of the two
sentinel-extended lists; the returned triple carries the merged result and
the two argument lists as the call leaves them.
-/

/-- `sys.maxint` on a 64-bit platform, i.e. 2^63 - 1. -/
def pymaxint : Int := 9223372036854775807

/-- The comparison loop of `merge_lists`: `count` steps, each taking the
strictly smaller head (on ties the second list is taken first, as in the
source's `else` branch). The nil cases are unreachable while the sentinels
remain in place. -/
def mergeLoop : Nat → List Int → List Int → List Int
  | 0, _, _ => []
  | _ + 1, [], _ => []
  | _ + 1, _, [] => []
  | count + 1, a :: as, b :: bs =>
    if a < b then a :: mergeLoop count as (b :: bs)
    else b :: mergeLoop count (a :: as) bs

/-- `merge_lists`: the merged list, together with the two argument lists as
they are left when the call returns (sentinel appended, then deleted). -/
def merge_lists (list1 list2 : List Int) : List Int × List Int × List Int :=
  (mergeLoop ((list1 ++ [pymaxint]).length + (list2 ++ [pymaxint]).length - 2)
      (list1 ++ [pymaxint]) (list2 ++ [pymaxint]),
    (list1 ++ [pymaxint]).dropLast, (list2 ++ [pymaxint]).dropLast)

theorem mergeLoop_cons (count : Nat) (a b : Int) (as bs : List Int) :
    mergeLoop (count + 1) (a :: as) (b :: bs) =
      if a < b then a :: mergeLoop count as (b :: bs)
      else b :: mergeLoop count (a :: as) bs := rfl

theorem mergeLoop_sentinel : ∀ (n : Nat) (l1 l2 : List Int),
    n = l1.length + l2.length →
    (∀ x ∈ l1, x < pymaxint) → (∀ x ∈ l2, x < pymaxint) →
    l1.Sorted (· ≤ ·) → l2.Sorted (· ≤ ·) →
    (mergeLoop n (l1 ++ [pymaxint]) (l2 ++ [pymaxint])).Sorted (· ≤ ·) ∧
    List.Perm (mergeLoop n (l1 ++ [pymaxint]) (l2 ++ [pymaxint])) (l1 ++ l2) := by
  intro n
  induction n using Nat.strong_induction_on with
  | _ n ih =>
    intro l1 l2 hn h1 h2 s1 s2
    match l1, l2 with
    | [], [] =>
      subst hn
      simp [mergeLoop]
    | [], b :: bs =>
      simp only [List.length_nil, List.length_cons, Nat.zero_add] at hn
      subst hn
      simp only [List.nil_append, List.cons_append]
      rw [mergeLoop_cons, if_neg (by
        have := h2 b (by simp)
        omega)]
      have hrec := ih bs.length (by omega) [] bs (by simp) (by simp)
        (fun x hx => h2 x (by simp [hx])) (by simp) ((List.sorted_cons.mp s2).2)
      simp only [List.nil_append] at hrec
      obtain ⟨hs, hp⟩ := hrec
      constructor
      · rw [List.sorted_cons]
        refine ⟨?_, hs⟩
        intro x hx
        have : x ∈ bs := by
          have := hp.mem_iff.mp hx
          simpa using this
        exact (List.sorted_cons.mp s2).1 x this
      · simpa using hp.cons b
    | a :: as, [] =>
      simp only [List.length_cons, List.length_nil, Nat.add_zero] at hn
      subst hn
      simp only [List.nil_append, List.cons_append]
      rw [mergeLoop_cons, if_pos (by
        have := h1 a (by simp)
        omega)]
      have hrec := ih as.length (by omega) as [] (by simp)
        (fun x hx => h1 x (by simp [hx])) (by simp) ((List.sorted_cons.mp s1).2) (by simp)
      simp only [List.append_nil, List.nil_append] at hrec
      obtain ⟨hs, hp⟩ := hrec
      constructor
      · rw [List.sorted_cons]
        refine ⟨?_, hs⟩
        intro x hx
        have : x ∈ as := by
          have := hp.mem_iff.mp hx
          simpa using this
        exact (List.sorted_cons.mp s1).1 x this
      · simpa using hp.cons a
    | a :: as, b :: bs =>
      simp only [List.length_cons] at hn
      subst hn
      simp only [List.cons_append]
      have hc : as.length + 1 + (bs.length + 1) = (as.length + (bs.length + 1)) + 1 := by
        omega
      rw [hc, mergeLoop_cons]
      obtain ⟨ha1, sa⟩ := List.sorted_cons.mp s1
      obtain ⟨hb1, sb⟩ := List.sorted_cons.mp s2
      by_cases hab : a < b
      · rw [if_pos hab]
        have hrec := ih (as.length + (bs.length + 1)) (by omega) as (b :: bs)
          (by simp) (fun x hx => h1 x (by simp [hx])) h2 sa s2
        simp only [List.cons_append] at hrec
        obtain ⟨hs, hp⟩ := hrec
        constructor
        · rw [List.sorted_cons]
          refine ⟨?_, hs⟩
          intro x hx
          have hx' : x ∈ as ++ b :: bs := hp.mem_iff.mp hx
          rcases List.mem_append.mp hx' with h | h
          · exact ha1 x h
          · rcases List.mem_cons.mp h with rfl | h
            · exact le_of_lt hab
            · exact le_trans (le_of_lt hab) (hb1 x h)
        · exact hp.cons a
      · rw [if_neg hab]
        have hba : b ≤ a := not_lt.mp hab
        have hrec := ih (as.length + (bs.length + 1)) (by omega) (a :: as) bs
          (by simp; omega) h1 (fun x hx => h2 x (by simp [hx])) s1 sb
        simp only [List.cons_append] at hrec
        obtain ⟨hs, hp⟩ := hrec
        constructor
        · rw [List.sorted_cons]
          refine ⟨?_, hs⟩
          intro x hx
          have hx' : x ∈ (a :: as) ++ bs := hp.mem_iff.mp hx
          rcases List.mem_append.mp hx' with h | h
          · rcases List.mem_cons.mp h with rfl | h
            · exact hba
            · exact le_trans hba (ha1 x h)
          · exact hb1 x h
        · exact (hp.cons b).trans (@List.perm_middle _ b (a :: as) bs).symm

/-- C10: on ascending-sorted integer lists whose elements are all below
`sys.maxint`, `merge_lists` returns an ascending-sorted list holding
exactly the multiset union of the two inputs, and both argument lists are
left equal to their original contents (the sentinel is deleted again). -/
theorem merge_lists_correct (list1 list2 : List Int)
    (s1 : list1.Sorted (· ≤ ·)) (s2 : list2.Sorted (· ≤ ·))
    (h1 : ∀ x ∈ list1, x < pymaxint) (h2 : ∀ x ∈ list2, x < pymaxint) :
    (merge_lists list1 list2).1.Sorted (· ≤ ·) ∧
    List.Perm (merge_lists list1 list2).1 (list1 ++ list2) ∧
    (merge_lists list1 list2).2.1 = list1 ∧
    (merge_lists list1 list2).2.2 = list2 := by
  have hc2 : (list1 ++ [pymaxint]).length + (list2 ++ [pymaxint]).length - 2 =
      list1.length + list2.length := by
    simp
    omega
  obtain ⟨hs, hp⟩ :=
    mergeLoop_sentinel (list1.length + list2.length) list1 list2 rfl h1 h2 s1 s2
  unfold merge_lists
  rw [hc2, List.dropLast_concat, List.dropLast_concat]
  exact ⟨hs, hp, rfl, rfl⟩

/-- C10 witness: merging `[1, 3]` and `[2, 2]`. -/
theorem merge_lists_correct_witness :
    (merge_lists [1, 3] [2, 2]).1.Sorted (· ≤ ·) ∧
    List.Perm (merge_lists [1, 3] [2, 2]).1 ([1, 3] ++ [2, 2]) ∧
    (merge_lists [1, 3] [2, 2]).2.1 = [1, 3] ∧
    (merge_lists [1, 3] [2, 2]).2.2 = [2, 2] :=
  merge_lists_correct [1, 3] [2, 2] (by decide) (by decide) (by decide) (by decide)

/-!
## One Hadoop streaming job

A job feeds the input file lines to `mapper_wrapper`; the printed
`key<TAB>value` lines pass through the streaming shuffle; `reducer_wrapper`
(src/prince.py lines 529-558) re-parses them, groups consecutive equal keys
with `groupby`, and prints the reducer's pairs.

Modelled from the spec: the shuffle between map and reduce is provided by
Hadoop, which is outside this repository; per the spec keys are visited by
the reduce stage in ascending (textual) sorted order and the value order
within a group is the order of arrival from the map stage, i.e. a stable
sort of the mapper output by key.
-/

/-- `read_input_reducer` on one record line:
`line.rstrip().split('\t', 1)` as a `(key, value)` pair. A line without a
separator would make the reducer's tuple unpacking raise; it is read with
an empty value here and does not arise for well-formed records. -/
def read_record_line (line : PyStr) : PyStr × PyStr :=
  match pySplit1 '\t' (pyRstrip line) with
  | [k, v] => (k, v)
  | [k] => (k, [])
  | _ => ([], [])

/-- The line printed for an emitted pair:
`'%s%s%s' % (str(key), '\t', str(value).rstrip())`. -/
def printRecord (p : PyStr × PyStr) : PyStr := p.1 ++ '\t' :: pyRstrip p.2

/-- Stable insertion by ascending textual key order. -/
def insertByKey (x : PyStr × PyStr) : List (PyStr × PyStr) → List (PyStr × PyStr)
  | [] => [x]
  | y :: ys => if pyLtB y.1 x.1 then y :: insertByKey x ys else x :: y :: ys

/-- Modelled from the spec: the Hadoop streaming shuffle, a stable sort of
the mapper's records by key in ascending textual order. -/
def shuffleSort (l : List (PyStr × PyStr)) : List (PyStr × PyStr) :=
  l.foldr insertByKey []

/-- `groupby(data, itemgetter(0))`: consecutive records with equal keys
form one group. -/
def groupByKey : List (PyStr × PyStr) → List (PyStr × List PyStr)
  | [] => []
  | (k, v) :: rest =>
    match groupByKey rest with
    | [] => [(k, [v])]
    | (k2, vs) :: gs =>
      if k = k2 then (k, v :: vs) :: gs else (k, [v]) :: (k2, vs) :: gs

/-- One streaming job over the input file lines: map, shuffle, group,
reduce, print. -/
def runJob (mapf : PyStr → PyStr → List (Option PyStr × PyStr))
    (redf : PyStr → List PyStr → List (PyStr × PyStr))
    (input : List PyStr) : List PyStr :=
  ((groupByKey (shuffleSort
      (((mapper_wrapper mapf input).map printRecord).map read_record_line))).flatMap
    (fun g => redf g.1 g.2)).map printRecord

/-!
## Dijkstra example (src/examples/dijkstra/dijkstra.py)

`frontier_mapper` (lines 48-57) tries to obtain its graph with
`params = prince.get_parameters()` and `read_graph(params['graph'][0])`.
Called with no names, `get_parameters` returns `tuple([])` — the empty
tuple (prince.py lines 104-111) — so `params['graph']` raises `TypeError`
for every record whose distance is non-negative, and the mapper task fails.
`frontier_mapper_src` embeds this faithfully with an `Except` result;
`frontier_mapper_repaired` is the explicitly repaired variant that receives
the adjacency mapping `read_graph` was meant to deliver, used to establish
what the pipeline computes once that fault is fixed.
-/

/-- `node_info`: parse `"node distance"` from a value, `none` for the
caught `ValueError` on malformed input. -/
def node_info (value : PyStr) : Option (Int × Int) :=
  match pySplitWs value with
  | [a, b] =>
    match parseInt a, parseInt b with
    | some node, some distance => some (node, distance)
    | _, _ => none
  | _ => none

/-- The `TypeError` raised by `()['graph']`. -/
def pyTypeError : PyStr := "TypeError: tuple indices must be integers, not str".data

/-- `frontier_mapper` as written: re-inject the node with
`int(fabs(distance))`; for a non-negative distance the generator body then
evaluates `prince.get_parameters()` — the empty tuple — and
`params['graph'][0]` raises `TypeError` while `mapper_wrapper`
materialises the pairs, so the mapper task fails (the pair already yielded
is lost with the failed task's output). -/
def frontier_mapper_src (_key value : PyStr) :
    Except PyStr (List (Option PyStr × PyStr)) :=
  match node_info value with
  | none => .ok []
  | some (node, distance) =>
    if 0 ≤ distance then .error pyTypeError
    else .ok [(some (intToStr node), intToStr ((distance.natAbs : Int)))]

/-- `frontier_mapper` with the graph lookup repaired: the adjacency mapping
that `read_graph(params['graph'][0])` was intended to produce is supplied
as an argument; the rest is the source body unchanged. -/
def frontier_mapper_repaired (graph : Int → List Int) (_key value : PyStr) :
    List (Option PyStr × PyStr) :=
  match node_info value with
  | none => []
  | some (node, distance) =>
    (some (intToStr node), intToStr ((distance.natAbs : Int))) ::
      (if 0 ≤ distance then
        (graph node).map (fun m => (some (intToStr m), intToStr (distance + 1)))
      else [])

/-- `frontier_reducer`: `min([int(v) for v in values])`, `ValueError`
(including the empty-group `min`) discarded. -/
def frontier_reducer (node : PyStr) (values : List PyStr) : List (PyStr × PyStr) :=
  match values.mapM parseInt with
  | some (d :: ds) => [(node, intToStr (ds.foldl min d))]
  | _ => []

/-- `filter_mapper`: identity on well-formed records. -/
def filter_mapper (_key value : PyStr) : List (Option PyStr × PyStr) :=
  match node_info value with
  | none => []
  | some (node, distance) => [(some (intToStr node), intToStr distance)]

/-- `filter_reducer`: a single distance passes through; two equal distances
yield the negated distance; otherwise the minimum. -/
def filter_reducer (node : PyStr) (values : List PyStr) : List (PyStr × PyStr) :=
  match values.mapM parseInt with
  | none => []
  | some [] => []
  | some [d] => [(node, intToStr d)]
  | some (d0 :: d1 :: rest) =>
    if d0 = d1 then [(node, intToStr (-d0))]
    else [(node, intToStr ((d1 :: rest).foldl min d0))]

/-- `termination_mapper`: emit `(0, changed)` with `changed = 0` iff the
distance is non-positive. -/
def termination_mapper (_key value : PyStr) : List (Option PyStr × PyStr) :=
  match node_info value with
  | none => []
  | some (_, distance) =>
    [(some (intToStr 0), intToStr (if distance ≤ 0 then 0 else 1))]

/-- `any(int(c) for c in changed)`: lazily scan; `none` models the
`ValueError` raised on a malformed value reached before any truthy one. -/
def anyIntTruthy : List PyStr → Option Bool
  | [] => some false
  | c :: cs =>
    match parseInt c with
    | none => none
    | some v => if v ≠ 0 then some true else anyIntTruthy cs

/-- `termination_reducer`: `(0, 0)` (continue) when any change is nonzero,
`(1, 1)` (converged) otherwise or on error. -/
def termination_reducer (_key : PyStr) (changed : List PyStr) : List (PyStr × PyStr) :=
  match anyIntTruthy changed with
  | some true => [(intToStr 0, intToStr 0)]
  | _ => [(intToStr 1, intToStr 1)]

/-- The 3-node path graph 0 → 1 → 2, as `read_graph` builds it from the
file `0 1\n1 2\n2\n`. -/
def pathGraph3 : Int → List Int :=
  fun n => if n = 0 then [1] else if n = 1 then [2] else []

/-- The seed file written by `dfs_write((source_node, 0))` for source 0. -/
def dijkstraSeed : List PyStr := [['0', '\t', '0']]

/-- Mapper stage whose user function may raise: a raised exception fails
the whole mapper task, so the job produces no output. -/
def mapperOutFromE (f : PyStr → PyStr → Except PyStr (List (Option PyStr × PyStr)))
    (key : Nat) : List PyStr → Except PyStr (List (PyStr × PyStr))
  | [] => .ok []
  | line :: rest =>
    match f (natToStr key) (pyRstrip line) with
    | .error e => .error e
    | .ok pairs =>
      match mapperOutFromE f (key + pairs.length) rest with
      | .error e => .error e
      | .ok out => .ok (emitPairs key pairs ++ out)

/-- One streaming job whose mapper may raise: a failed map task fails the
job and no output file is committed. -/
def runJobSrc (mapf : PyStr → PyStr → Except PyStr (List (Option PyStr × PyStr)))
    (redf : PyStr → List PyStr → List (PyStr × PyStr))
    (input : List PyStr) : Except PyStr (List PyStr) :=
  match mapperOutFromE mapf 0 input with
  | .error e => .error e
  | .ok recs =>
    .ok (((groupByKey (shuffleSort
        ((recs.map printRecord).map read_record_line))).flatMap
      (fun g => redf g.1 g.2)).map printRecord)

/-- The dijkstra driver loop over the source's `frontier_mapper`: a failed
job aborts the run, and every later artefact of the loop is missing. -/
def dijkstraStateSrc : Nat → Except PyStr (List PyStr × List PyStr)
  | 0 => .ok (dijkstraSeed, dijkstraSeed)
  | n + 1 =>
    match dijkstraStateSrc n with
    | .error e => .error e
    | .ok s =>
      match runJobSrc frontier_mapper_src frontier_reducer s.2 with
      | .error e => .error e
      | .ok frontier =>
        match runJobSrc (fun k v => .ok (filter_mapper k v)) filter_reducer
            (s.1 ++ frontier) with
        | .error e => .error e
        | .ok filt => .ok (frontier, filt)

/-- Termination file of iteration `n` of the source pipeline. -/
def dijkstraTermSrc (n : Nat) : Except PyStr (List PyStr) :=
  match dijkstraStateSrc n with
  | .error e => .error e
  | .ok s => runJobSrc (fun k v => .ok (termination_mapper k v)) termination_reducer s.2

/-- Frontier and filter files of iteration `n` of the repaired driver loop
(iteration 0 holds the seeded files; the filter job of iteration `n + 1`
reads the previous and the current frontier). -/
def dijkstraStateRepaired : Nat → List PyStr × List PyStr
  | 0 => (dijkstraSeed, dijkstraSeed)
  | n + 1 =>
    let s := dijkstraStateRepaired n
    let frontier := runJob (frontier_mapper_repaired pathGraph3) frontier_reducer s.2
    let filt := runJob filter_mapper filter_reducer (s.1 ++ frontier)
    (frontier, filt)

/-- Termination file of iteration `n` of the repaired pipeline. -/
def dijkstraTermRepaired (n : Nat) : List PyStr :=
  runJob termination_mapper termination_reducer (dijkstraStateRepaired n).2

/-- `stop = int(termination_value.split()[1])` on the file's text. -/
def readStopFlag (lines : List PyStr) : Option Int :=
  ((pySplitWs (joinWith '\n' lines)).get? 1).bind parseInt

/-- C5 counterexample: on the seed record `(0, 0)` the source's
`frontier_mapper` raises `TypeError` (its no-argument `get_parameters()`
call yields the empty tuple), so the first frontier job fails and the
pipeline produces no round-2 termination record — in particular not the
converged record `1<TAB>1` the claim asserts. -/
theorem dijkstra_first_frontier_job_fails :
    frontier_mapper_src ['0'] ['0', '\t', '0'] = .error pyTypeError ∧
    runJobSrc frontier_mapper_src frontier_reducer dijkstraSeed = .error pyTypeError ∧
    dijkstraTermSrc 2 = .error pyTypeError ∧
    dijkstraTermSrc 2 ≠ .ok [['1', '\t', '1']] :=
  ⟨rfl, rfl, rfl, fun h => Except.noConfusion h⟩

/-- C5 (amended): as written, the pipeline never converges — for any record
with non-negative distance `frontier_mapper`'s `prince.get_parameters()`
(called with no names) returns the empty tuple, `params['graph'][0]` raises
`TypeError`, the first frontier job fails on the seed record and no
termination record is ever produced (rounds 1-3 all error). With the graph
lookup repaired to supply the adjacency mapping `read_graph` was meant to
deliver, the distances {0:0, 1:1, 2:2} are all reached in the round-2
frontier (2 frontier-expansion rounds), but the termination flag record
stays `(0, 0)` ("continue") at rounds 1 and 2 and first becomes `(1, 1)`
("converged") only at round 3, when stability of node 2 is observed. -/
theorem dijkstra_path3_crash_and_repaired_convergence :
    (dijkstraTermSrc 1 = .error pyTypeError ∧
     dijkstraTermSrc 2 = .error pyTypeError ∧
     dijkstraTermSrc 3 = .error pyTypeError) ∧
    (dijkstraStateRepaired 2).1 =
      [['0', '\t', '0'], ['1', '\t', '1'], ['2', '\t', '2']] ∧
    dijkstraTermRepaired 1 = [['0', '\t', '0']] ∧
    readStopFlag (dijkstraTermRepaired 1) = some 0 ∧
    dijkstraTermRepaired 2 = [['0', '\t', '0']] ∧
    readStopFlag (dijkstraTermRepaired 2) = some 0 ∧
    dijkstraTermRepaired 3 = [['1', '\t', '1']] ∧
    readStopFlag (dijkstraTermRepaired 3) = some 1 := by
  refine ⟨⟨rfl, rfl, rfl⟩, by decide, by decide, by decide, by decide, by decide,
    by decide, by decide⟩

/-!
## Merge sort example (src/examples/mergesort/mergesort.py)
-/

/-- `str_to_int`: parse every string, or `[]` when any raises. -/
def str_to_int (strings : List PyStr) : List Int :=
  match strings.mapM parseInt with
  | some xs => xs
  | none => []

/-- `int_to_str`. -/
def int_to_str (ints : List Int) : List PyStr := ints.map intToStr

/-- Stable ascending insertion into a list of integers. -/
def insertSortedInt (x : Int) : List Int → List Int
  | [] => [x]
  | y :: ys => if y < x then y :: insertSortedInt x ys else x :: y :: ys

/-- Python `sorted` on integers. -/
def pysortedInt (l : List Int) : List Int := l.foldr insertSortedInt []

/-- `init_mapper`: `key = int(key) + 1`; the line's whitespace tokens go to
buckets `key + index`. -/
def init_mapper (key value : PyStr) : List (Option PyStr × PyStr) :=
  match parseInt key with
  | none => []
  | some k =>
    (pySplitWs value).enum.map (fun p => (some (intToStr (k + 1 + (p.1 : Int))), p.2))

/-- `init_reducer`: sort the small bucket and join it into one value. -/
def init_reducer (key : PyStr) (values : List PyStr) : List (PyStr × PyStr) :=
  [(key, joinWith ' ' (int_to_str (pysortedInt (str_to_int values))))]

/-- `merge_mapper`: group sibling buckets by the halved id
`(int(id_bucket) + 1) / 2`. -/
def merge_mapper (_key value : PyStr) : List (Option PyStr × PyStr) :=
  match pySplitWs1 value with
  | [idb, numbers] =>
    match parseInt idb with
    | some i => [(some (intToStr ((i + 1) / 2)), numbers)]
    | none => []
  | _ => []

/-- `merge_reducer`: merge two sibling buckets; a lone bucket passes
through unchanged, and the lone bucket of id 1 additionally emits the
reserved invalid-bucket signal record `(0, 1)`. -/
def merge_reducer (key : PyStr) (values : List PyStr) : List (PyStr × PyStr) :=
  match parseInt key with
  | none => []
  | some k =>
    if 0 < k then
      match values with
      | [b0, b1] =>
        [(key, joinWith ' ' (int_to_str
          ((merge_lists (str_to_int (pySplitWs b0)) (str_to_int (pySplitWs b1))).1)))]
      | b0 :: _ => (key, b0) :: (if k = 1 then [(intToStr 0, intToStr 1)] else [])
      | [] => []
    else []

/-- Outputs of the mergesort driver loop: round 0 is the init job; each
later round runs one merge job over the previous round's file. -/
def mergesortOutput (input : List PyStr) : Nat → List PyStr
  | 0 => runJob init_mapper init_reducer input
  | n + 1 => runJob merge_mapper merge_reducer (mergesortOutput input n)

/-- The driver's stop test on one round's file:
`int(dfs_read(current, last=1).split()[0]) == 0` — the key field of the
last line. -/
def merge_stop (lines : List PyStr) : Bool :=
  match lines.getLast? with
  | some line =>
    match (pySplitWs line).head? with
    | some tok => parseInt tok == some 0
    | none => false
  | none => false

/-- Fuel-bounded search for the first merge round carrying the signal. -/
def mergesortStopRoundGo (input : List PyStr) : Nat → Nat → Option Nat
  | 0, _ => none
  | fuel + 1, n =>
    if merge_stop (mergesortOutput input n) then some n
    else mergesortStopRoundGo input fuel (n + 1)

/-- The round at which the mergesort driver loop stops. -/
def mergesortStopRound (input : List PyStr) (fuel : Nat) : Option Nat :=
  mergesortStopRoundGo input fuel 1

theorem clog_two_four : Nat.clog 2 4 = 2 := by
  rw [Nat.clog_of_two_le (by norm_num) (by norm_num)]
  norm_num
  rw [Nat.clog_of_two_le (by norm_num) (by norm_num)]
  norm_num

/-- C7 counterexample: for the n = 4 input `5 3 8 1`, the signal record
appears and the loop stops at merge round 3, not after
`⌈log2 n⌉ = 2` rounds as claimed. -/
theorem mergesort_rounds_counterexample :
    mergesortStopRound [['5', ' ', '3', ' ', '8', ' ', '1', '\n']] 6 = some 3 ∧
    Nat.clog 2 4 = 2 ∧ (3 : Nat) ≠ 2 :=
  ⟨by decide, clog_two_four, by decide⟩

/-- C7 (amended): a reduce group for key `1` holding exactly one bucket
emits that bucket unchanged followed by the reserved invalid-bucket signal
record `(0, 1)`; the driver loop stops in exactly the round where the
signal appears, which for n initial values is round `⌈log2 n⌉ + 1` — the
`⌈log2 n⌉` merging rounds plus the termination-detection round the
program's own docstring describes (verified here for n = 4: the signal
appears in round 3 and rounds 1 and 2 continue). -/
theorem mergesort_signal_and_rounds :
    (∀ v : PyStr, merge_reducer ['1'] [v] = [(['1'], v), (['0'], ['1'])]) ∧
    mergesortStopRound [['5', ' ', '3', ' ', '8', ' ', '1', '\n']] 6 = some 3 ∧
    Nat.clog 2 4 + 1 = 3 := by
  refine ⟨fun v => rfl, by decide, by rw [clog_two_four]⟩

/-!
## Dijkstra command-line handling (src/examples/dijkstra/dijkstra.py
lines 131-141)

The program prints its usage text and exits with status 0 unless
`len(sys.argv)` is exactly 3 — even though the usage text documents the
optional `[iteration_max]` and `[iteration_start]` arguments and lines
140-141 parse `sys.argv[3]` / `sys.argv[4]`, code the length check makes
unreachable.
-/

/-- The `__main__` argument handling of dijkstra: `none` models printing
usage and exiting with status 0; otherwise the graph file name, the source
node, the iteration ceiling (default `sys.maxint`) and the start iteration
(default 1). The two conditional parses mirror lines 140-141; under the
`!= 3` guard their conditions can never hold. -/
def dijkstra_parse_args (argv : List PyStr) : Option (PyStr × PyStr × Int × Int) :=
  if argv.length ≠ 3 then none
  else
    match argv with
    | _prog :: g :: s :: rest =>
      some (g, s,
        (if argv.length = 4 then (rest.head?.bind parseInt).getD 0 else pymaxint),
        (if argv.length = 5 then ((rest.get? 1).bind parseInt).getD 0 else 1))
    | _ => none

/-- C9: dijkstra invoked with a graph file, a source node and a
max-iterations value prints usage and exits 0 instead of running with that
iteration ceiling — the `len(sys.argv) != 3` guard rejects the documented
optional argument; with exactly two positional arguments the program runs
with the default ceiling `sys.maxint`. -/
theorem dijkstra_max_iterations_rejected :
    dijkstra_parse_args
      ["./dijkstra.py".data, "graph.txt".data, ['0'], ['1', '0']] = none ∧
    dijkstra_parse_args ["./dijkstra.py".data, "graph.txt".data, ['0']] =
      some ("graph.txt".data, ['0'], pymaxint, 1) := by
  refine ⟨by decide, by decide⟩
